import Mathlib

/-!
Shallow embedding of the session/presence registry and message-routing
engine of `src/server.js` (socket.io chat server), together with proofs
about its behaviour.

The mutable JS object `users = { socketId: { username, room } }` is
modelled as an insertion-ordered association list with unique keys
(`Registry`).  socket.io room membership (maintained by `socket.join` /
`socket.leave`) is modelled as the list `rooms` of (connection, room)
pairs.  Each socket.io handler becomes a pure function from the server
state and the event payload to the new state and the list of observable
actions it performs, in program order: archive writes (the awaited
`save()` calls, tagged with whether the write succeeded) and emissions.
An emission records the target descriptor used by the code
(`io.to(room)`, `socket.emit`, `socket.broadcast.to(room)`) together
with the concrete recipient set resolved against the socket.io room
membership at the moment of emission, exactly as socket.io resolves it.
-/

namespace ChatApp

/-- One entry of the `users` object: `{ username, room }`. -/
structure UserInfo where
  username : String
  room : String
deriving DecidableEq, Repr

abbrev ConnId := String

/-- The `users` object: insertion-ordered map from socket id to user info. -/
abbrev Registry := List (ConnId × UserInfo)

/-- `users[socket.id]` lookup. -/
def lookupUser (users : Registry) (c : ConnId) : Option UserInfo :=
  (users.find? (fun p => p.1 == c)).map Prod.snd

/-- `users[socket.id] = v`: update in place when the key exists, else append
(JS objects preserve insertion order for string keys). -/
def setUser (users : Registry) (c : ConnId) (v : UserInfo) : Registry :=
  if users.any (fun p => p.1 == c) then
    users.map (fun p => if p.1 == c then (c, v) else p)
  else
    users ++ [(c, v)]

/-- `delete users[socket.id]`. -/
def delUser (users : Registry) (c : ConnId) : Registry :=
  users.filter (fun p => !(p.1 == c))

/-- `getRoomUsers(room)`: `Object.values(users).filter(u => u.room === room)`. -/
def getRoomUsers (users : Registry) (room : String) : List UserInfo :=
  (users.map Prod.snd).filter (fun u => u.room == room)

/-- `Object.entries(users).find(([, u]) => u.username === to_user)`:
first registry entry bound to the given identity. -/
def findRecipient (users : Registry) (to_user : String) : Option (ConnId × UserInfo) :=
  users.find? (fun p => p.2.username == to_user)

/-- socket.io room membership: set of (socket id, room) pairs. -/
abbrev IORooms := List (ConnId × String)

/-- `socket.join(room)` (idempotent). -/
def ioJoin (rs : IORooms) (c : ConnId) (r : String) : IORooms :=
  if rs.any (fun p => p.1 == c && p.2 == r) then rs else rs ++ [(c, r)]

/-- `socket.leave(room)`. -/
def ioLeave (rs : IORooms) (c : ConnId) (r : String) : IORooms :=
  rs.filter (fun p => !(p.1 == c && p.2 == r))

/-- Transport-level removal of a disconnected socket from all its rooms. -/
def ioLeaveAll (rs : IORooms) (c : ConnId) : IORooms :=
  rs.filter (fun p => !(p.1 == c))

/-- Server state: the `users` registry plus socket.io room membership. -/
structure ServerState where
  users : Registry
  rooms : IORooms
deriving DecidableEq, Repr

/-- A group message record handed to `GroupMessage`/the archive. -/
structure GroupMsgData where
  from_user : String
  room : String
  message : String
  date_sent : Nat
deriving DecidableEq, Repr

/-- A private message record handed to `PrivateMessage`/the archive. -/
structure PrivMsgData where
  from_user : String
  to_user : String
  message : String
  date_sent : Nat
deriving DecidableEq, Repr

/-- Outbound event payloads.  Bot notices and group chat messages both
travel on the `message` event; bot notices carry no `room` field. -/
inductive Payload where
  | message (from_user : String) (room : Option String) (body : String) (date_sent : Nat)
  | roomUsers (roster : List UserInfo)
  | privateMessage (from_user to_user body : String) (date_sent : Nat)
  | typing (username : String)
  | stopTyping
  | previousMessages (msgs : List GroupMsgData)
deriving DecidableEq, Repr

/-- Emission target descriptors used by the handlers. -/
inductive Target where
  | toRoom (room : String)
  | toSocket (c : ConnId)
  | broadcastRoom (sender : ConnId) (room : String)
deriving DecidableEq, Repr

/-- Observable actions of a handler, in program order.  `emit` records the
recipient set resolved against socket.io room membership at emission time;
the append actions stand for the awaited `save()` call settling, with its
outcome. -/
inductive Action where
  | emit (t : Target) (recips : List ConnId) (p : Payload)
  | appendGroup (ok : Bool) (m : GroupMsgData)
  | appendPriv (ok : Bool) (m : PrivMsgData)
deriving DecidableEq, Repr

/-- Recipients socket.io resolves for a target in a given state. -/
def targetRecipients (st : ServerState) (t : Target) : List ConnId :=
  match t with
  | .toRoom r => (st.rooms.filter (fun p => p.2 == r)).map Prod.fst
  | .toSocket c => [c]
  | .broadcastRoom s r =>
      ((st.rooms.filter (fun p => p.2 == r)).map Prod.fst).filter (fun c => !(c == s))

/-- JS truthiness of an optional string payload field. -/
def truthy : Option String → Bool
  | none => false
  | some s => !(s == "")

/-- The `joinRoom` handler.  `hist` is the result of the awaited
`GroupMessage.find` history query (`none` = query threw, error logged). -/
def joinRoom (st : ServerState) (c : ConnId) (username room : String)
    (now : Nat) (hist : Option (List GroupMsgData)) : ServerState × List Action :=
  let pre : ServerState × List Action :=
    match lookupUser st.users c with
    | some u =>
        if u.room = "" then (st, [])
        else
          let st1 : ServerState := ⟨st.users, ioLeave st.rooms c u.room⟩
          (st1,
           [Action.emit (Target.toRoom u.room) (targetRecipients st1 (Target.toRoom u.room))
              (Payload.message "Chat App Bot" none (u.username ++ " has left the chat") now),
            Action.emit (Target.toRoom u.room) (targetRecipients st1 (Target.toRoom u.room))
              (Payload.roomUsers (getRoomUsers st1.users u.room))])
    | none => (st, [])
  let st2 : ServerState := ⟨setUser pre.1.users c ⟨username, room⟩, ioJoin pre.1.rooms c room⟩
  let mainActs : List Action :=
    [Action.emit (Target.toSocket c) [c]
       (Payload.message "Chat App Bot" none "Welcome to chat app :)" now),
     Action.emit (Target.broadcastRoom c room)
       (targetRecipients st2 (Target.broadcastRoom c room))
       (Payload.message "Chat App Bot" none (username ++ " has joined the chat") now),
     Action.emit (Target.toRoom room) (targetRecipients st2 (Target.toRoom room))
       (Payload.roomUsers (getRoomUsers st2.users room))]
  let histActs : List Action :=
    match hist with
    | some msgs => [Action.emit (Target.toSocket c) [c] (Payload.previousMessages msgs)]
    | none => []
  (st2, pre.2 ++ mainActs ++ histActs)

/-- The `chatMessage` handler.  `ok` is the outcome of the awaited
`groupMessage.save()` (failure is caught and logged). -/
def chatMessage (st : ServerState) (c : ConnId) (msg : String) (now : Nat)
    (ok : Bool) : ServerState × List Action :=
  match lookupUser st.users c with
  | none => (st, [])
  | some user =>
      (st,
       [Action.appendGroup ok ⟨user.username, user.room, msg, now⟩,
        Action.emit (Target.toRoom user.room) (targetRecipients st (Target.toRoom user.room))
          (Payload.message user.username (some user.room) msg now)])

/-- The `privateMessage` handler.  `ok` is the outcome of the awaited
`privateMsg.save()` (failure is caught and logged). -/
def privateMessage (st : ServerState) (c : ConnId) (to_user msg : String)
    (now : Nat) (ok : Bool) : ServerState × List Action :=
  match lookupUser st.users c with
  | none => (st, [])
  | some user =>
      let p := Payload.privateMessage user.username to_user msg now
      let recipientActs : List Action :=
        match findRecipient st.users to_user with
        | some rp => [Action.emit (Target.toSocket rp.1) [rp.1] p]
        | none => []
      (st,
       [Action.appendPriv ok ⟨user.username, to_user, msg, now⟩] ++ recipientActs ++
         [Action.emit (Target.toSocket c) [c] p])

/-- The `typing` handler (note: it never consults `users[socket.id]`). -/
def typing (st : ServerState) (c : ConnId) (username : String)
    (room to_user : Option String) : ServerState × List Action :=
  if truthy to_user then
    match findRecipient st.users (to_user.getD "") with
    | some rp => (st, [Action.emit (Target.toSocket rp.1) [rp.1] (Payload.typing username)])
    | none => (st, [])
  else if truthy room then
    let r := room.getD ""
    (st, [Action.emit (Target.broadcastRoom c r)
            (targetRecipients st (Target.broadcastRoom c r)) (Payload.typing username)])
  else (st, [])

/-- The `stopTyping` handler (it never consults `users[socket.id]` either). -/
def stopTyping (st : ServerState) (c : ConnId)
    (room to_user : Option String) : ServerState × List Action :=
  if truthy to_user then
    match findRecipient st.users (to_user.getD "") with
    | some rp => (st, [Action.emit (Target.toSocket rp.1) [rp.1] Payload.stopTyping])
    | none => (st, [])
  else if truthy room then
    let r := room.getD ""
    (st, [Action.emit (Target.broadcastRoom c r)
            (targetRecipients st (Target.broadcastRoom c r)) Payload.stopTyping])
  else (st, [])

/-- The `leaveRoom` handler.  Mirrors the source order: `socket.leave`,
emit left notice, emit roster (computed from the still-unchanged
registry), then `delete users[socket.id]`. -/
def leaveRoom (st : ServerState) (c : ConnId) (now : Nat) : ServerState × List Action :=
  match lookupUser st.users c with
  | none => (st, [])
  | some user =>
      let st1 : ServerState := ⟨st.users, ioLeave st.rooms c user.room⟩
      (⟨delUser st.users c, st1.rooms⟩,
       [Action.emit (Target.toRoom user.room) (targetRecipients st1 (Target.toRoom user.room))
          (Payload.message "Chat App Bot" none (user.username ++ " has left the chat") now),
        Action.emit (Target.toRoom user.room) (targetRecipients st1 (Target.toRoom user.room))
          (Payload.roomUsers (getRoomUsers st1.users user.room))])

/-- The `disconnect` handler.  The transport has already removed the socket
from all its rooms when the handler runs; the registry is still intact. -/
def disconnect (st : ServerState) (c : ConnId) (now : Nat) : ServerState × List Action :=
  let rooms1 := ioLeaveAll st.rooms c
  match lookupUser st.users c with
  | none => (⟨st.users, rooms1⟩, [])
  | some user =>
      let st1 : ServerState := ⟨st.users, rooms1⟩
      (⟨delUser st.users c, rooms1⟩,
       [Action.emit (Target.toRoom user.room) (targetRecipients st1 (Target.toRoom user.room))
          (Payload.message "Chat App Bot" none (user.username ++ " has left the chat") now),
        Action.emit (Target.toRoom user.room) (targetRecipients st1 (Target.toRoom user.room))
          (Payload.roomUsers (getRoomUsers st1.users user.room))])

/-- Is the action an emission? -/
def isEmitA : Action → Bool
  | .emit _ _ _ => true
  | _ => false

/-- Is the action an archive append? -/
def isAppendA : Action → Bool
  | .appendGroup _ _ => true
  | .appendPriv _ _ => true
  | _ => false

/-- The emissions of a trace, in order. -/
def emitsOf (tr : List Action) : List Action :=
  tr.filter isEmitA

/-- True iff some emission occurs strictly before some archive-append
settles in the trace. -/
def emitBeforeAppend (tr : List Action) : Bool :=
  (tr.dropWhile (fun a => !(isEmitA a))).any isAppendA

/-- How many times payload `p` is delivered to connection `c` by the trace
(recipient multiplicity summed over all emissions of `p`). -/
def deliveredCount : List Action → ConnId → Payload → Nat
  | [], _, _ => 0
  | .emit _ recips q :: tl, c, p =>
      (if q = p then recips.count c else 0) + deliveredCount tl c p
  | _ :: tl, c, p => deliveredCount tl c p

/-- The archive contents: saved group and private message records. -/
structure Archive where
  groupMsgs : List GroupMsgData
  privMsgs : List PrivMsgData
deriving DecidableEq, Repr

/-- Effect of a trace on the archive: successful appends persist. -/
def runArchive (ar : Archive) : List Action → Archive
  | [] => ar
  | .appendGroup true m :: tl => runArchive ⟨ar.groupMsgs ++ [m], ar.privMsgs⟩ tl
  | .appendPriv true m :: tl => runArchive ⟨ar.groupMsgs, ar.privMsgs ++ [m]⟩ tl
  | _ :: tl => runArchive ar tl

/-- The room a target addresses, if any. -/
def targetRoom : Target → Option String
  | .toRoom r => some r
  | .broadcastRoom _ r => some r
  | .toSocket _ => none

/-- Is the action a bot system notice with the given body, addressed to the
given room? -/
def isNoticeTo (roomName body : String) (a : Action) : Bool :=
  match a with
  | .emit t _ (.message f none b _) =>
      match targetRoom t with
      | some r => r == roomName && f == "Chat App Bot" && b == body
      | none => false
  | _ => false

/-- Is the action a roster refresh addressed to the given room? -/
def isRosterTo (roomName : String) (a : Action) : Bool :=
  match a with
  | .emit t _ (.roomUsers _) =>
      match targetRoom t with
      | some r => r == roomName
      | none => false
  | _ => false

/-- Well-formedness of the server state: registry keys are unique (JS
object), socket.io membership pairs are unique (`join` is idempotent), and
every registered session is a member of the socket.io room it is bound to. -/
def Inv (st : ServerState) : Prop :=
  (st.users.map Prod.fst).Nodup ∧ st.rooms.Nodup ∧
    ∀ p ∈ st.users, (p.1, p.2.room) ∈ st.rooms

/-- A lookup hit comes from a registry entry. -/
theorem mem_of_lookupUser {users : Registry} {c : ConnId} {u : UserInfo}
    (h : lookupUser users c = some u) : (c, u) ∈ users := by
  unfold lookupUser at h
  rcases Option.map_eq_some'.mp h with ⟨p, hfind, hsnd⟩
  have hmem := List.mem_of_find?_eq_some hfind
  have hpred := List.find?_some hfind
  have h1 : p.1 = c := by simpa using hpred
  cases p
  simp only at h1 hsnd
  subst h1; subst hsnd
  exact hmem

/-- With unique keys, a registry entry is found by lookup. -/
theorem lookupUser_of_mem_nodup {users : Registry} {c : ConnId} {u : UserInfo}
    (hnd : (users.map Prod.fst).Nodup) (hmem : (c, u) ∈ users) :
    lookupUser users c = some u := by
  induction users with
  | nil => simp at hmem
  | cons hd tl ih =>
      simp only [List.map_cons, List.nodup_cons] at hnd
      rcases List.mem_cons.mp hmem with heq | htl
      · subst heq
        simp [lookupUser]
      · by_cases hhd : hd.1 = c
        · exfalso
          exact hnd.1 (hhd ▸ (List.mem_map.mpr ⟨(c, u), htl, rfl⟩))
        · have hbeq : (hd.1 == c) = false := beq_eq_false_iff_ne.mpr hhd
          have htail := ih hnd.2 htl
          simpa [lookupUser, List.find?, hbeq] using htail

/-- After `delete users[c]`, looking up `c` fails. -/
theorem lookupUser_delUser_self (users : Registry) (c : ConnId) :
    lookupUser (delUser users c) c = none := by
  unfold lookupUser
  rw [Option.map_eq_none']
  rw [List.find?_eq_none]
  intro p hp
  have := (List.mem_filter.mp hp).2
  simpa using this

/-- In a duplicate-free membership list, a member of room `r` appears
exactly once among the recipients resolved for `io.to(r)`. -/
theorem count_recipients_toRoom {rs : IORooms} {d : ConnId} {r : String}
    (hnd : rs.Nodup) (hmem : (d, r) ∈ rs) :
    ((rs.filter (fun p => p.2 == r)).map Prod.fst).count d = 1 := by
  induction rs with
  | nil => simp at hmem
  | cons hd tl ih =>
      rw [List.nodup_cons] at hnd
      rcases List.mem_cons.mp hmem with heq | htl
      · subst heq
        have hz : ((tl.filter (fun p => p.2 == r)).map Prod.fst).count d = 0 := by
          rw [List.count_eq_zero]
          intro hc
          rcases List.mem_map.mp hc with ⟨q, hq, hfst⟩
          have hq2 := (List.mem_filter.mp hq).2
          have hq1 := (List.mem_filter.mp hq).1
          have : q = (d, r) := by
            cases q
            simp only at hfst
            simp only [beq_iff_eq] at hq2
            simp [hfst, hq2]
          exact hnd.1 (this ▸ hq1)
        simp [List.count_cons, hz]
      · have hrec := ih hnd.2 htl
        by_cases h2 : hd.2 = r
        · have h1 : hd.1 ≠ d := by
            intro h1
            apply hnd.1
            have : hd = (d, r) := by
              cases hd
              simp only at h1 h2
              simp [h1, h2]
            exact this ▸ htl
          simp [List.filter_cons, h2, List.count_cons, h1, hrec]
        · simp [List.filter_cons, h2, hrec]

/-- Concrete state: alice (conn1) and bob (conn2) both in room sports. -/
def sportsState : ServerState :=
  ⟨[("conn1", ⟨"alice", "sports"⟩), ("conn2", ⟨"bob", "sports"⟩)],
   [("conn1", "sports"), ("conn2", "sports")]⟩

/-- Concrete state: alice (conn1) alone in room sports. -/
def aliceState : ServerState :=
  ⟨[("conn1", ⟨"alice", "sports"⟩)], [("conn1", "sports")]⟩

/-- Claim C1: the spec says the roster emitted on leave/disconnect reflects
the membership after the departure, but both handlers compute the roster
from the registry before `delete users[socket.id]` runs, so the emitted
roster still contains the departing identity.  Evaluating the code:
when bob (conn2) disconnects from sports, the roster emitted to sports is
`[alice, bob]`, not `[alice]`. -/
theorem departure_emits_roster_containing_departer :
    lookupUser sportsState.users "conn2" = some ⟨"bob", "sports"⟩ ∧
    (disconnect sportsState "conn2" 7).2 =
      [Action.emit (Target.toRoom "sports") ["conn1"]
         (Payload.message "Chat App Bot" none "bob has left the chat" 7),
       Action.emit (Target.toRoom "sports") ["conn1"]
         (Payload.roomUsers [⟨"alice", "sports"⟩, ⟨"bob", "sports"⟩])] ∧
    (leaveRoom sportsState "conn2" 7).2 =
      [Action.emit (Target.toRoom "sports") ["conn1"]
         (Payload.message "Chat App Bot" none "bob has left the chat" 7),
       Action.emit (Target.toRoom "sports") ["conn1"]
         (Payload.roomUsers [⟨"alice", "sports"⟩, ⟨"bob", "sports"⟩])] := by
  decide

/-- Claim C6 counterexample: the claim says an explicit leave clears only
the session's room field and preserves the session record, but `leaveRoom`
ends with `delete users[socket.id]`: after alice (conn1) leaves, her
session is gone from the registry entirely. -/
theorem leaveRoom_session_not_preserved :
    lookupUser aliceState.users "conn1" = some ⟨"alice", "sports"⟩ ∧
    lookupUser (leaveRoom aliceState "conn1" 3).1.users "conn1" = none := by
  decide

/-- Claim C6 (amended): an explicit leave removes the departing session
entirely from the registry, exactly like a disconnect does. -/
theorem leaveRoom_removes_session (st : ServerState) (c : ConnId) (u : UserInfo)
    (now : Nat) (hc : lookupUser st.users c = some u) :
    lookupUser (leaveRoom st c now).1.users c = none ∧
    lookupUser (disconnect st c now).1.users c = none := by
  constructor <;>
    simp [leaveRoom, disconnect, hc, lookupUser_delUser_self]

/-- Witness for `leaveRoom_removes_session` at a concrete input. -/
theorem leaveRoom_removes_session_witness :
    lookupUser aliceState.users "conn1" = some ⟨"alice", "sports"⟩ ∧
    (lookupUser (leaveRoom aliceState "conn1" 3).1.users "conn1" = none ∧
     lookupUser (disconnect aliceState "conn1" 3).1.users "conn1" = none) :=
  ⟨by decide, leaveRoom_removes_session aliceState "conn1" ⟨"alice", "sports"⟩ 3 (by decide)⟩

/-- Claim C5 counterexample: the claim says every event from a connection
with no active session is silently dropped with no outbound emission, but
the `typing` handler never consults `users[socket.id]`: an unregistered
connection conn9 sending a room typing signal causes a typing emission
that reaches conn1. -/
theorem typing_unbound_sender_not_dropped :
    lookupUser aliceState.users "conn9" = none ∧
    (typing aliceState "conn9" "mallory" (some "sports") none).2 =
      [Action.emit (Target.broadcastRoom "conn9" "sports") ["conn1"]
         (Payload.typing "mallory")] := by
  decide

/-- Claim C5 (amended): group messages, direct messages and explicit
leaves from a connection with no active session are silently dropped (no
state change, no action at all); typing and stop-typing, however, never
consult the sender's session and are relayed from the payload alone. -/
theorem unbound_sender_dropped (st : ServerState) (c : ConnId) (msg b : String)
    (now : Nat) (ok : Bool) (h : lookupUser st.users c = none) :
    chatMessage st c msg now ok = (st, []) ∧
    privateMessage st c b msg now ok = (st, []) ∧
    leaveRoom st c now = (st, []) := by
  refine ⟨?_, ?_, ?_⟩ <;> simp [chatMessage, privateMessage, leaveRoom, h]

/-- Witness for `unbound_sender_dropped` at a concrete input. -/
theorem unbound_sender_dropped_witness :
    lookupUser aliceState.users "conn9" = none ∧
    (chatMessage aliceState "conn9" "hi" 4 true = (aliceState, []) ∧
     privateMessage aliceState "conn9" "bob" "hi" 4 true = (aliceState, []) ∧
     leaveRoom aliceState "conn9" 4 = (aliceState, [])) :=
  ⟨by decide, unbound_sender_dropped aliceState "conn9" "hi" "bob" 4 true (by decide)⟩

/-- Claim C7 counterexample: the claim says the live fan-out is emitted
before the archive append completes, but both message handlers `await` the
`save()` call before emitting: in the produced trace the settled append
strictly precedes the broadcast, and no emission occurs before it. -/
theorem chatMessage_fanout_after_append :
    (chatMessage aliceState "conn1" "hi" 5 true).2 =
      [Action.appendGroup true ⟨"alice", "sports", "hi", 5⟩,
       Action.emit (Target.toRoom "sports") ["conn1"]
         (Payload.message "alice" (some "sports") "hi" 5)] ∧
    emitBeforeAppend (chatMessage aliceState "conn1" "hi" 5 true).2 = false := by
  decide

/-- Claim C7 (amended): for every group or direct message from a bound
sender, the archive append settles first (the handler awaits it) and every
remaining action of the handler is an emission, so the fan-out is ordered
after — not before — the append; delivery happens whatever the append
outcome. -/
theorem append_settles_before_fanout (st : ServerState) (c : ConnId) (u : UserInfo)
    (msg b : String) (now : Nat) (ok : Bool) (hc : lookupUser st.users c = some u) :
    (∃ rest, (chatMessage st c msg now ok).2 =
        Action.appendGroup ok ⟨u.username, u.room, msg, now⟩ :: rest ∧
      rest.all isEmitA = true) ∧
    (∃ rest, (privateMessage st c b msg now ok).2 =
        Action.appendPriv ok ⟨u.username, b, msg, now⟩ :: rest ∧
      rest.all isEmitA = true) := by
  constructor
  · refine ⟨[Action.emit (Target.toRoom u.room) (targetRecipients st (Target.toRoom u.room))
        (Payload.message u.username (some u.room) msg now)], ?_, ?_⟩
    · simp [chatMessage, hc]
    · simp [isEmitA]
  · cases hfr : findRecipient st.users b with
    | none =>
        refine ⟨[Action.emit (Target.toSocket c) [c]
            (Payload.privateMessage u.username b msg now)], ?_, ?_⟩
        · simp [privateMessage, hc, hfr]
        · simp [isEmitA]
    | some rp =>
        refine ⟨[Action.emit (Target.toSocket rp.1) [rp.1]
            (Payload.privateMessage u.username b msg now),
          Action.emit (Target.toSocket c) [c]
            (Payload.privateMessage u.username b msg now)], ?_, ?_⟩
        · simp [privateMessage, hc, hfr]
        · simp [isEmitA]

/-- Witness for `append_settles_before_fanout` at a concrete input. -/
theorem append_settles_before_fanout_witness :
    lookupUser aliceState.users "conn1" = some ⟨"alice", "sports"⟩ ∧
    ((∃ rest, (chatMessage aliceState "conn1" "hi" 5 true).2 =
        Action.appendGroup true ⟨"alice", "sports", "hi", 5⟩ :: rest ∧
      rest.all isEmitA = true) ∧
     (∃ rest, (privateMessage aliceState "conn1" "bob" "hi" 5 true).2 =
        Action.appendPriv true ⟨"alice", "bob", "hi", 5⟩ :: rest ∧
      rest.all isEmitA = true)) :=
  ⟨by decide,
   append_settles_before_fanout aliceState "conn1" ⟨"alice", "sports"⟩ "hi" "bob" 5 true
     (by decide)⟩

/-- Claim C8: when the archive append fails (the `save()` throws and the
`catch` only logs), the handlers emit exactly the same events and leave the
registry exactly as on archive success — delivery is unchanged and no
error reaches any client. -/
theorem archive_failure_leaves_delivery_unchanged (st : ServerState) (c : ConnId)
    (u : UserInfo) (msg b : String) (now : Nat)
    (hc : lookupUser st.users c = some u) :
    emitsOf (chatMessage st c msg now false).2 =
      emitsOf (chatMessage st c msg now true).2 ∧
    (chatMessage st c msg now false).1 = (chatMessage st c msg now true).1 ∧
    emitsOf (privateMessage st c b msg now false).2 =
      emitsOf (privateMessage st c b msg now true).2 ∧
    (privateMessage st c b msg now false).1 = (privateMessage st c b msg now true).1 := by
  refine ⟨?_, ?_, ?_, ?_⟩ <;>
    cases hfr : findRecipient st.users b <;>
      simp [chatMessage, privateMessage, emitsOf, isEmitA, hc, hfr]

/-- Witness for `archive_failure_leaves_delivery_unchanged`. -/
theorem archive_failure_leaves_delivery_unchanged_witness :
    lookupUser aliceState.users "conn1" = some ⟨"alice", "sports"⟩ ∧
    (emitsOf (chatMessage aliceState "conn1" "hi" 5 false).2 =
       emitsOf (chatMessage aliceState "conn1" "hi" 5 true).2 ∧
     (chatMessage aliceState "conn1" "hi" 5 false).1 =
       (chatMessage aliceState "conn1" "hi" 5 true).1 ∧
     emitsOf (privateMessage aliceState "conn1" "bob" "hi" 5 false).2 =
       emitsOf (privateMessage aliceState "conn1" "bob" "hi" 5 true).2 ∧
     (privateMessage aliceState "conn1" "bob" "hi" 5 false).1 =
       (privateMessage aliceState "conn1" "bob" "hi" 5 true).1) :=
  ⟨by decide,
   archive_failure_leaves_delivery_unchanged aliceState "conn1" ⟨"alice", "sports"⟩
     "hi" "bob" 5 (by decide)⟩

/-- Claim C9: typing and stop-typing handlers never mutate the registry or
the socket.io membership and never write to the archive, so typing
indicators can never surface in a later history fetch. -/
theorem typing_no_archive_write_no_mutation (st : ServerState) (c : ConnId)
    (username : String) (room to_user : Option String) (ar : Archive) :
    (typing st c username room to_user).1 = st ∧
    runArchive ar (typing st c username room to_user).2 = ar ∧
    (stopTyping st c room to_user).1 = st ∧
    runArchive ar (stopTyping st c room to_user).2 = ar := by
  refine ⟨?_, ?_, ?_, ?_⟩ <;>
    cases htu : truthy to_user <;>
      cases hr : truthy room <;>
        cases hfr : findRecipient st.users (to_user.getD "") <;>
          simp [typing, stopTyping, htu, hr, hfr, runArchive]

/-- Claim C3: a group message from a session bound (with identity `u`) to
room `u.room` is delivered exactly once — stamped with the sender identity
and room — to every connection whose session is currently bound to that
room, the sender included (instantiate `d := c`). -/
theorem chatMessage_delivered_exactly_once (st : ServerState) (c d : ConnId)
    (u v : UserInfo) (msg : String) (now : Nat) (ok : Bool)
    (hInv : Inv st) (hc : lookupUser st.users c = some u)
    (hd : lookupUser st.users d = some v) (hroom : v.room = u.room) :
    deliveredCount (chatMessage st c msg now ok).2 d
      (Payload.message u.username (some u.room) msg now) = 1 := by
  have hmem : (d, u.room) ∈ st.rooms := by
    have := hInv.2.2 (d, v) (mem_of_lookupUser hd)
    rwa [hroom] at this
  simp only [chatMessage, hc, deliveredCount, targetRecipients, if_pos]
  rw [count_recipients_toRoom hInv.2.1 hmem]

/-- Witness for `chatMessage_delivered_exactly_once`: alice messages
sports; bob's connection receives it exactly once. -/
theorem chatMessage_delivered_exactly_once_witness :
    (Inv sportsState ∧
     lookupUser sportsState.users "conn1" = some ⟨"alice", "sports"⟩ ∧
     lookupUser sportsState.users "conn2" = some ⟨"bob", "sports"⟩) ∧
    deliveredCount (chatMessage sportsState "conn1" "hi" 5 true).2 "conn2"
      (Payload.message "alice" (some "sports") "hi" 5) = 1 :=
  ⟨⟨by unfold Inv; decide, by decide, by decide⟩,
   chatMessage_delivered_exactly_once sportsState "conn1" "conn2"
     ⟨"alice", "sports"⟩ ⟨"bob", "sports"⟩ "hi" 5 true (by unfold Inv; decide)
     (by decide) (by decide) rfl⟩

/-- Claim C10: when a bound sender direct-messages their own identity and
their session is the first registry entry carrying that identity, the
recipient resolution picks the sender's own connection, so the sender
receives the message twice: the recipient delivery plus the unconditional
echo. -/
theorem privateMessage_to_self_delivered_twice (st : ServerState) (c : ConnId)
    (u : UserInfo) (msg : String) (now : Nat) (ok : Bool)
    (hc : lookupUser st.users c = some u)
    (hfirst : findRecipient st.users u.username = some (c, u)) :
    deliveredCount (privateMessage st c u.username msg now ok).2 c
      (Payload.privateMessage u.username u.username msg now) = 2 := by
  simp [privateMessage, hc, hfirst, deliveredCount]

/-- Witness for `privateMessage_to_self_delivered_twice`: alice messages
"alice". -/
theorem privateMessage_to_self_delivered_twice_witness :
    (lookupUser aliceState.users "conn1" = some ⟨"alice", "sports"⟩ ∧
     findRecipient aliceState.users "alice" = some ("conn1", ⟨"alice", "sports"⟩)) ∧
    deliveredCount (privateMessage aliceState "conn1" "alice" "hi" 5 true).2 "conn1"
      (Payload.privateMessage "alice" "alice" "hi" 5) = 2 :=
  ⟨⟨by decide, by decide⟩,
   privateMessage_to_self_delivered_twice aliceState "conn1" ⟨"alice", "sports"⟩
     "hi" 5 true (by decide) (by decide)⟩

/-- A hit of the recipient scan is a registered session carrying the
searched identity. -/
theorem findRecipient_spec {st : ServerState} {b : String}
    (hInv : Inv st) :
    ∀ p : ConnId × UserInfo, findRecipient st.users b = some p →
      lookupUser st.users p.1 = some p.2 ∧ p.2.username = b := by
  intro p hp
  have hmem := List.mem_of_find?_eq_some hp
  have hpred := List.find?_some hp
  have hub : p.2.username = b := by simpa using hpred
  exact ⟨lookupUser_of_mem_nodup hInv.1 hmem, hub⟩

/-- Claim C4: a direct message from a bound sender is delivered to a
connection of identity `b` iff some live session is bound to `b` at send
time; the sender's connection always receives the echo; and when `b` is
offline the handler's whole output is the archive append plus the echo. -/
theorem privateMessage_delivery_iff (st : ServerState) (c : ConnId) (u : UserInfo)
    (b msg : String) (now : Nat) (ok : Bool)
    (hInv : Inv st) (hc : lookupUser st.users c = some u) :
    ((∃ d v, lookupUser st.users d = some v ∧ v.username = b) ↔
      (∃ d v, lookupUser st.users d = some v ∧ v.username = b ∧
        Action.emit (Target.toSocket d) [d] (Payload.privateMessage u.username b msg now)
          ∈ (privateMessage st c b msg now ok).2)) ∧
    Action.emit (Target.toSocket c) [c] (Payload.privateMessage u.username b msg now)
      ∈ (privateMessage st c b msg now ok).2 ∧
    ((¬ ∃ d v, lookupUser st.users d = some v ∧ v.username = b) →
      (privateMessage st c b msg now ok).2 =
        [Action.appendPriv ok ⟨u.username, b, msg, now⟩,
         Action.emit (Target.toSocket c) [c]
           (Payload.privateMessage u.username b msg now)]) := by
  refine ⟨⟨?_, ?_⟩, ?_, ?_⟩
  · rintro ⟨d, v, hdv, hvb⟩
    cases hfr : findRecipient st.users b with
    | none =>
        exfalso
        have := List.find?_eq_none.mp hfr (d, v) (mem_of_lookupUser hdv)
        simp [hvb] at this
    | some rp =>
        obtain ⟨hlk, hub⟩ := findRecipient_spec hInv rp hfr
        refine ⟨rp.1, rp.2, hlk, hub, ?_⟩
        simp [privateMessage, hc, hfr]
  · rintro ⟨d, v, hdv, hvb, _⟩
    exact ⟨d, v, hdv, hvb⟩
  · cases hfr : findRecipient st.users b <;> simp [privateMessage, hc, hfr]
  · intro hno
    cases hfr : findRecipient st.users b with
    | some rp =>
        exfalso
        obtain ⟨hlk, hub⟩ := findRecipient_spec hInv rp hfr
        exact hno ⟨rp.1, rp.2, hlk, hub⟩
    | none => simp [privateMessage, hc, hfr]

/-- Witness for `privateMessage_delivery_iff`: alice direct-messages bob
while bob is online. -/
theorem privateMessage_delivery_iff_witness :
    (Inv sportsState ∧
     lookupUser sportsState.users "conn1" = some ⟨"alice", "sports"⟩) ∧
    (((∃ d v, lookupUser sportsState.users d = some v ∧ v.username = "bob") ↔
       (∃ d v, lookupUser sportsState.users d = some v ∧ v.username = "bob" ∧
         Action.emit (Target.toSocket d) [d] (Payload.privateMessage "alice" "bob" "yo" 9)
           ∈ (privateMessage sportsState "conn1" "bob" "yo" 9 true).2)) ∧
     Action.emit (Target.toSocket "conn1") ["conn1"]
         (Payload.privateMessage "alice" "bob" "yo" 9)
       ∈ (privateMessage sportsState "conn1" "bob" "yo" 9 true).2 ∧
     ((¬ ∃ d v, lookupUser sportsState.users d = some v ∧ v.username = "bob") →
       (privateMessage sportsState "conn1" "bob" "yo" 9 true).2 =
         [Action.appendPriv true ⟨"alice", "bob", "yo", 9⟩,
          Action.emit (Target.toSocket "conn1") ["conn1"]
            (Payload.privateMessage "alice" "bob" "yo" 9)])) :=
  ⟨⟨by unfold Inv; decide, by decide⟩,
   privateMessage_delivery_iff sportsState "conn1" ⟨"alice", "sports"⟩ "bob" "yo" 9 true
     (by unfold Inv; decide) (by decide)⟩

/-- Claim C2: when a session bound to room A joins a different room B, the
handler emits exactly one "left" notice and exactly one roster refresh
addressed to A, and exactly one "joined" notice and exactly one roster
refresh addressed to B; and the trace is ordered left-notice(A),
roster(A), welcome, joined-notice(B), roster(B). -/
theorem joinRoom_switch_notices_and_rosters (st : ServerState) (c : ConnId)
    (u : UserInfo) (username room : String) (now : Nat)
    (hist : Option (List GroupMsgData))
    (hc : lookupUser st.users c = some u) (hprev : u.room ≠ "")
    (hne : u.room ≠ room) :
    ((joinRoom st c username room now hist).2.countP
        (isNoticeTo u.room (u.username ++ " has left the chat")) = 1 ∧
     (joinRoom st c username room now hist).2.countP (isRosterTo u.room) = 1 ∧
     (joinRoom st c username room now hist).2.countP
        (isNoticeTo room (username ++ " has joined the chat")) = 1 ∧
     (joinRoom st c username room now hist).2.countP (isRosterTo room) = 1) ∧
    (∃ r1 r2 ros1 wrec r3 r4 ros2 rest,
      (joinRoom st c username room now hist).2 =
        Action.emit (Target.toRoom u.room) r1
            (Payload.message "Chat App Bot" none
              (u.username ++ " has left the chat") now) ::
          Action.emit (Target.toRoom u.room) r2 (Payload.roomUsers ros1) ::
          Action.emit (Target.toSocket c) wrec
              (Payload.message "Chat App Bot" none "Welcome to chat app :)" now) ::
          Action.emit (Target.broadcastRoom c room) r3
              (Payload.message "Chat App Bot" none
                (username ++ " has joined the chat") now) ::
          Action.emit (Target.toRoom room) r4 (Payload.roomUsers ros2) :: rest) := by
  have hA : (u.room == room) = false := beq_eq_false_iff_ne.mpr hne
  have hB : (room == u.room) = false := beq_eq_false_iff_ne.mpr (Ne.symm hne)
  have htr : (joinRoom st c username room now hist).2 =
      Action.emit (Target.toRoom u.room)
          (targetRecipients ⟨st.users, ioLeave st.rooms c u.room⟩
            (Target.toRoom u.room))
          (Payload.message "Chat App Bot" none
            (u.username ++ " has left the chat") now) ::
        Action.emit (Target.toRoom u.room)
            (targetRecipients ⟨st.users, ioLeave st.rooms c u.room⟩
              (Target.toRoom u.room))
            (Payload.roomUsers (getRoomUsers st.users u.room)) ::
        Action.emit (Target.toSocket c) [c]
            (Payload.message "Chat App Bot" none "Welcome to chat app :)" now) ::
        Action.emit (Target.broadcastRoom c room)
            (targetRecipients
              ⟨setUser st.users c ⟨username, room⟩,
               ioJoin (ioLeave st.rooms c u.room) c room⟩
              (Target.broadcastRoom c room))
            (Payload.message "Chat App Bot" none
              (username ++ " has joined the chat") now) ::
        Action.emit (Target.toRoom room)
            (targetRecipients
              ⟨setUser st.users c ⟨username, room⟩,
               ioJoin (ioLeave st.rooms c u.room) c room⟩
              (Target.toRoom room))
            (Payload.roomUsers (getRoomUsers (setUser st.users c ⟨username, room⟩) room)) ::
        (match hist with
         | some msgs =>
             [Action.emit (Target.toSocket c) [c] (Payload.previousMessages msgs)]
         | none => []) := by
    cases hist <;> simp [joinRoom, hc, hprev]
  rw [htr]
  constructor
  · cases hist <;>
      refine ⟨?_, ?_, ?_, ?_⟩ <;>
        simp [List.countP_cons, isNoticeTo, isRosterTo, targetRoom, hA, hB]
  · exact ⟨_, _, _, _, _, _, _, _, rfl⟩

/-- Witness for `joinRoom_switch_notices_and_rosters`: alice, bound to
sports, joins devops. -/
theorem joinRoom_switch_notices_and_rosters_witness :
    (lookupUser aliceState.users "conn1" = some ⟨"alice", "sports"⟩ ∧
     "sports" ≠ "" ∧ "sports" ≠ "devops") ∧
    (((joinRoom aliceState "conn1" "alice" "devops" 11 none).2.countP
        (isNoticeTo "sports" ("alice" ++ " has left the chat")) = 1 ∧
      (joinRoom aliceState "conn1" "alice" "devops" 11 none).2.countP
        (isRosterTo "sports") = 1 ∧
      (joinRoom aliceState "conn1" "alice" "devops" 11 none).2.countP
        (isNoticeTo "devops" ("alice" ++ " has joined the chat")) = 1 ∧
      (joinRoom aliceState "conn1" "alice" "devops" 11 none).2.countP
        (isRosterTo "devops") = 1) ∧
     (∃ r1 r2 ros1 wrec r3 r4 ros2 rest,
       (joinRoom aliceState "conn1" "alice" "devops" 11 none).2 =
         Action.emit (Target.toRoom "sports") r1
             (Payload.message "Chat App Bot" none
               ("alice" ++ " has left the chat") 11) ::
           Action.emit (Target.toRoom "sports") r2 (Payload.roomUsers ros1) ::
           Action.emit (Target.toSocket "conn1") wrec
               (Payload.message "Chat App Bot" none "Welcome to chat app :)" 11) ::
           Action.emit (Target.broadcastRoom "conn1" "devops") r3
               (Payload.message "Chat App Bot" none
                 ("alice" ++ " has joined the chat") 11) ::
           Action.emit (Target.toRoom "devops") r4 (Payload.roomUsers ros2) :: rest)) :=
  ⟨⟨by decide, by decide, by decide⟩,
   joinRoom_switch_notices_and_rosters aliceState "conn1" ⟨"alice", "sports"⟩
     "alice" "devops" 11 none (by decide) (by decide) (by decide)⟩

/-- The empty server state is well-formed. -/
theorem Inv_empty : Inv ⟨[], []⟩ :=
  ⟨List.nodup_nil, List.nodup_nil, by simp⟩

/-- Registry keys stay duplicate-free across `users[c] = v`. -/
theorem setUser_keys_nodup {users : Registry} (c : ConnId) (v : UserInfo)
    (hnd : (users.map Prod.fst).Nodup) :
    ((setUser users c v).map Prod.fst).Nodup := by
  unfold setUser
  by_cases h : users.any (fun p => p.1 == c) = true
  · rw [if_pos h]
    have hmap : (users.map (fun p => if p.1 == c then (c, v) else p)).map Prod.fst =
        users.map Prod.fst := by
      rw [List.map_map]
      apply List.map_congr_left
      intro p _
      by_cases hpc : (p.1 == c) = true
      · simp only [Function.comp, hpc, if_pos]
        exact (beq_iff_eq.mp hpc).symm
      · simp [Function.comp, hpc]
    rw [hmap]
    exact hnd
  · rw [if_neg h]
    rw [List.map_append]
    simp only [List.map_cons, List.map_nil]
    rw [List.nodup_append]
    refine ⟨hnd, List.nodup_singleton c, ?_⟩
    intro a ha hb
    simp only [List.mem_singleton] at hb
    subst hb
    rcases List.mem_map.mp ha with ⟨p, hp, hfst⟩
    exact h (List.any_eq_true.mpr ⟨p, hp, by simp [hfst]⟩)

/-- An entry of the updated registry is either the new binding or an
untouched entry with a different key. -/
theorem mem_setUser {users : Registry} {c : ConnId} {v : UserInfo}
    {p : ConnId × UserInfo} (hp : p ∈ setUser users c v) :
    p = (c, v) ∨ (p ∈ users ∧ p.1 ≠ c) := by
  unfold setUser at hp
  by_cases h : users.any (fun q => q.1 == c) = true
  · rw [if_pos h] at hp
    rcases List.mem_map.mp hp with ⟨q, hq, hf⟩
    by_cases hqc : (q.1 == c) = true
    · left
      rw [if_pos hqc] at hf
      exact hf.symm
    · right
      rw [if_neg hqc] at hf
      subst hf
      exact ⟨hq, by simpa using hqc⟩
  · rw [if_neg h] at hp
    rcases List.mem_append.mp hp with hq | hq
    · exact Or.inr ⟨hq, fun hpc => h (List.any_eq_true.mpr ⟨p, hq, by simp [hpc]⟩)⟩
    · left
      simpa using hq

/-- socket.io membership stays duplicate-free across `socket.join`. -/
theorem ioJoin_nodup {rs : IORooms} (c : ConnId) (r : String) (hnd : rs.Nodup) :
    (ioJoin rs c r).Nodup := by
  unfold ioJoin
  by_cases h : rs.any (fun p => p.1 == c && p.2 == r) = true
  · rw [if_pos h]; exact hnd
  · rw [if_neg h]
    rw [List.nodup_append]
    refine ⟨hnd, List.nodup_singleton _, ?_⟩
    intro a ha hb
    simp only [List.mem_singleton] at hb
    subst hb
    exact h (List.any_eq_true.mpr ⟨(c, r), ha, by simp⟩)

/-- After `socket.join(r)`, the socket is a member of room `r`. -/
theorem mem_ioJoin_self (rs : IORooms) (c : ConnId) (r : String) :
    (c, r) ∈ ioJoin rs c r := by
  unfold ioJoin
  by_cases h : rs.any (fun p => p.1 == c && p.2 == r) = true
  · rw [if_pos h]
    rcases List.any_eq_true.mp h with ⟨p, hp, hpred⟩
    have hpe : p = (c, r) := by
      cases p
      simp only [Bool.and_eq_true, beq_iff_eq] at hpred
      simp [hpred.1, hpred.2]
    exact hpe ▸ hp
  · rw [if_neg h]
    exact List.mem_append.mpr (Or.inr (List.mem_singleton.mpr rfl))

/-- `socket.join` never evicts an existing membership. -/
theorem mem_ioJoin_of_mem {rs : IORooms} {q : ConnId × String} (c : ConnId)
    (r : String) (hq : q ∈ rs) : q ∈ ioJoin rs c r := by
  unfold ioJoin
  by_cases h : rs.any (fun p => p.1 == c && p.2 == r) = true
  · rw [if_pos h]; exact hq
  · rw [if_neg h]; exact List.mem_append.mpr (Or.inl hq)

/-- `socket.leave` only affects the leaving socket's membership. -/
theorem mem_ioLeave_of_fst_ne {rs : IORooms} {q : ConnId × String} {c : ConnId}
    (r : String) (hq : q ∈ rs) (hne : q.1 ≠ c) : q ∈ ioLeave rs c r := by
  refine List.mem_filter.mpr ⟨hq, ?_⟩
  simp [hne]

/-- Rebinding session `c` and adding it to its new socket.io room yields a
well-formed state, provided all other sessions are already members of
their rooms. -/
theorem Inv_setUser_ioJoin {users : Registry} {rs : IORooms} (c : ConnId)
    (v : UserInfo) (hnd : (users.map Prod.fst).Nodup) (hrs : rs.Nodup)
    (h3 : ∀ p ∈ users, p.1 ≠ c → (p.1, p.2.room) ∈ rs) :
    Inv ⟨setUser users c v, ioJoin rs c v.room⟩ := by
  refine ⟨setUser_keys_nodup c v hnd, ioJoin_nodup c v.room hrs, ?_⟩
  intro p hp
  rcases mem_setUser hp with heq | ⟨hmem, hne⟩
  · subst heq
    exact mem_ioJoin_self rs c v.room
  · exact mem_ioJoin_of_mem c v.room (h3 p hmem hne)

/-- `joinRoom` preserves well-formedness of the server state. -/
theorem joinRoom_preserves_Inv (st : ServerState) (c : ConnId)
    (username room : String) (now : Nat) (hist : Option (List GroupMsgData))
    (hInv : Inv st) : Inv (joinRoom st c username room now hist).1 := by
  obtain ⟨hnd, hrs, h3⟩ := hInv
  cases hlk : lookupUser st.users c with
  | none =>
      simp only [joinRoom, hlk]
      exact Inv_setUser_ioJoin c ⟨username, room⟩ hnd hrs (fun p hp _ => h3 p hp)
  | some u =>
      by_cases hur : u.room = ""
      · simp only [joinRoom, hlk, if_pos hur]
        exact Inv_setUser_ioJoin c ⟨username, room⟩ hnd hrs (fun p hp _ => h3 p hp)
      · simp only [joinRoom, hlk, if_neg hur]
        refine Inv_setUser_ioJoin c ⟨username, room⟩ hnd (List.Nodup.filter _ hrs) ?_
        intro p hp hne
        exact mem_ioLeave_of_fst_ne u.room (h3 p hp) hne

/-- `leaveRoom` preserves well-formedness of the server state. -/
theorem leaveRoom_preserves_Inv (st : ServerState) (c : ConnId) (now : Nat)
    (hInv : Inv st) : Inv (leaveRoom st c now).1 := by
  obtain ⟨hnd, hrs, h3⟩ := hInv
  cases hlk : lookupUser st.users c with
  | none =>
      simp only [leaveRoom, hlk]
      exact ⟨hnd, hrs, h3⟩
  | some u =>
      simp only [leaveRoom, hlk]
      have hsub : ((delUser st.users c).map Prod.fst).Sublist (st.users.map Prod.fst) :=
        (List.filter_sublist _).map _
      refine ⟨List.Nodup.sublist hsub hnd, List.Nodup.filter _ hrs, ?_⟩
      intro p hp
      have hmem := (List.mem_filter.mp hp).1
      have hne : p.1 ≠ c := by simpa using (List.mem_filter.mp hp).2
      exact mem_ioLeave_of_fst_ne u.room (h3 p hmem) hne

/-- `disconnect` preserves well-formedness of the server state. -/
theorem disconnect_preserves_Inv (st : ServerState) (c : ConnId) (now : Nat)
    (hInv : Inv st) : Inv (disconnect st c now).1 := by
  obtain ⟨hnd, hrs, h3⟩ := hInv
  have hsub : ((delUser st.users c).map Prod.fst).Sublist (st.users.map Prod.fst) :=
    (List.filter_sublist _).map _
  have hmem3 : ∀ p ∈ delUser st.users c, (p.1, p.2.room) ∈ ioLeaveAll st.rooms c := by
    intro p hp
    have hmem := (List.mem_filter.mp hp).1
    have hne : p.1 ≠ c := by simpa using (List.mem_filter.mp hp).2
    refine List.mem_filter.mpr ⟨h3 p hmem, ?_⟩
    simp [hne]
  cases hlk : lookupUser st.users c with
  | none =>
      have hlk2 : st.users.find? (fun q => q.1 == c) = none := by
        have := hlk
        unfold lookupUser at this
        exact Option.map_eq_none'.mp this
      simp only [disconnect, hlk]
      refine ⟨hnd, List.Nodup.filter _ hrs, ?_⟩
      intro p hp
      have hne : p.1 ≠ c := by
        intro hpc
        have := List.find?_eq_none.mp hlk2 p hp
        simp [hpc] at this
      refine List.mem_filter.mpr ⟨h3 p hp, by simp [hne]⟩
  | some u =>
      simp only [disconnect, hlk]
      exact ⟨List.Nodup.sublist hsub hnd, List.Nodup.filter _ hrs, hmem3⟩

/-- The routing and typing handlers never mutate the server state. -/
theorem routing_preserves_state (st : ServerState) (c : ConnId) (msg b : String)
    (now : Nat) (ok : Bool) (username : String) (room to_user : Option String) :
    (chatMessage st c msg now ok).1 = st ∧
    (privateMessage st c b msg now ok).1 = st ∧
    (typing st c username room to_user).1 = st ∧
    (stopTyping st c room to_user).1 = st := by
  refine ⟨?_, ?_, ?_, ?_⟩ <;>
    cases hlk : lookupUser st.users c <;>
      cases htu : truthy to_user <;>
        cases hfr : findRecipient st.users (to_user.getD "") <;>
          cases hfb : findRecipient st.users b <;>
            cases hr : truthy room <;>
              simp [chatMessage, privateMessage, typing, stopTyping, hlk, htu, hfr, hfb, hr]

end ChatApp
